import Mathlib

/-!
Shallow embedding of the composite (additive) surface-brightness profile
SBAdd (src/src/SBAdd.cpp) and of the Spergel profile
(src/unnamed/part_000 together with src/include/galsim/SBSpergelImpl.h),
with theorems checking the specification claims against the code.

Machine doubles are modelled as exact rationals for the list/reduction
code of SBAdd and as real numbers for the Spergel numerics.  External
collaborators that are not part of the four source files (the uniform and
binomial random deviates, the Brent root solver of Solve.h, the
cyl_bessel_k evaluator) enter the embedding as explicit function
parameters or, where a claim depends on their behaviour, as definitions
modelled from the specification text.
-/

/-- One photon of a photon sample set: position and flux weight. -/
structure Photon where
  x : ℚ
  y : ℚ
  flux : ℚ
deriving DecidableEq, Repr

/-- Per-member data that SBAdd::SBAddImpl reads off each summand through
the SBProfile interface: getFlux, centroid, maxK, stepK, the four
capability flags, getPositiveFlux/getNegativeFlux, and the sub-sample
produced by the member shoot routine.  The member shoot routine is
modelled as a deterministic function from the requested photon count to
the list of photons it returns (the uniform deviate it consumes is
absorbed into the function). -/
structure SBElem where
  flux : ℚ
  centroidX : ℚ
  centroidY : ℚ
  maxk : ℚ
  stepk : ℚ
  axisymmetric : Bool
  analyticX : Bool
  analyticK : Bool
  hardEdges : Bool
  positiveFlux : ℚ
  negativeFlux : ℚ
  shootFn : ℕ → List Photon

/-- A profile handle as seen by the SBAdd constructor: either a
non-composite profile (for which the dynamic_cast to SBAddImpl in
SBAdd::SBAddImpl::add fails) or a composite carrying the member list
_plist of its implementation. -/
inductive SBProfile where
  | base (e : SBElem) : SBProfile
  | sbadd (plist : List SBProfile) : SBProfile

/-- Test used by SBAdd::SBAddImpl::add (the dynamic_cast on line 71 of
SBAdd.cpp): is this handle itself an SBAdd composite? -/
def SBProfile.isComposite : SBProfile → Bool
  | SBProfile.base _ => false
  | SBProfile.sbadd _ => true

/-- List of summands that SBAdd::SBAddImpl::add appends for one right-hand
side: the full member list when the summand is itself an SBAdd, otherwise
the singleton of the summand itself. -/
def SBProfile.summands : SBProfile → List SBProfile
  | SBProfile.base e => [SBProfile.base e]
  | SBProfile.sbadd ps => ps

/-- Translation of SBAdd::SBAddImpl::add (SBAdd.cpp lines 66-78): when the
new summand dynamically is an SBAdd, insert its full member list at the
end of _plist, otherwise push_back the summand. -/
def addMember (plist : List SBProfile) (rhs : SBProfile) : List SBProfile :=
  match rhs with
  | SBProfile.sbadd ps => plist ++ ps
  | SBProfile.base e => plist ++ [SBProfile.base e]

/-- Member list built by the SBAdd::SBAddImpl constructor (SBAdd.cpp lines
57-64): starting from an empty _plist, call add on every element of the
input list in order. -/
def mkSBAddPlist (slist : List SBProfile) : List SBProfile :=
  slist.foldl addMember []

/-- The SBAdd handle produced by the constructor, carrying the member list
the constructor built. -/
def mkSBAdd (slist : List SBProfile) : SBProfile :=
  SBProfile.sbadd (mkSBAddPlist slist)

/-- Translation of SBAdd::getObjs / SBAddImpl::getObjs: the stored member
list of a composite (and the trivial singleton for a non-composite
handle, which the source never queries this way). -/
def getObjs : SBProfile → List SBProfile
  | SBProfile.base e => [SBProfile.base e]
  | SBProfile.sbadd ps => ps

/-- Well-formedness of a handle as produced by the constructors: a
non-composite handle, or a composite none of whose stored members is
itself a composite. -/
def SBProfile.flatMembers : SBProfile → Bool
  | SBProfile.base _ => true
  | SBProfile.sbadd ps => ps.all (fun q => !q.isComposite)

/-- Reduced scalar and boolean properties accumulated by
SBAdd::SBAddImpl::initialize over the member list. -/
structure AddProps where
  sumflux : ℚ
  sumfx : ℚ
  sumfy : ℚ
  maxMaxK : ℚ
  minStepK : ℚ
  allAxisymmetric : Bool
  allAnalyticX : Bool
  allAnalyticK : Bool
  anyHardEdges : Bool
deriving DecidableEq, Repr

/-- One step of the accumulation loop in SBAdd::SBAddImpl (SBAdd.cpp lines
88-102), processing a single member. -/
def initStep (s : AddProps) (p : SBElem) : AddProps :=
  { sumflux := s.sumflux + p.flux
    sumfx := s.sumfx + p.flux * p.centroidX
    sumfy := s.sumfy + p.flux * p.centroidY
    maxMaxK := if p.maxk > s.maxMaxK then p.maxk else s.maxMaxK
    minStepK := if s.minStepK ≤ 0 ∨ p.stepk < s.minStepK then p.stepk else s.minStepK
    allAxisymmetric := s.allAxisymmetric && p.axisymmetric
    allAnalyticX := s.allAnalyticX && p.analyticX
    allAnalyticK := s.allAnalyticK && p.analyticK
    anyHardEdges := s.anyHardEdges || p.hardEdges }

/-- Starting state of the accumulation in SBAdd::SBAddImpl (SBAdd.cpp
lines 82-85): zero sums and band limits, conjunction flags true,
disjunction flag false. -/
def initZero : AddProps :=
  { sumflux := 0, sumfx := 0, sumfy := 0, maxMaxK := 0, minStepK := 0,
    allAxisymmetric := true, allAnalyticX := true, allAnalyticK := true,
    anyHardEdges := false }

/-- Translation of SBAdd::SBAddImpl (SBAdd.cpp lines 80-104, the method
the constructor calls after building _plist): start from the zero state,
then accumulate over all members in one pass. -/
def initProps (plist : List SBElem) : AddProps :=
  plist.foldl initStep initZero

/-- Modelled from the spec: the trivial accessors of SBAddImpl live in
SBAddImpl.h, which is not under src/.  Per spec section 4.5 the composite
reports the accumulated total flux. -/
def AddProps.getFlux (s : AddProps) : ℚ := s.sumflux

/-- Modelled from the spec: SBAddImpl.h is not under src/; per spec
section 4.5 the centroid is the flux-weighted coordinate sum divided by
the total flux. -/
def AddProps.centroidX (s : AddProps) : ℚ := s.sumfx / s.sumflux

/-- Modelled from the spec: SBAddImpl.h is not under src/; per spec
section 4.5 the centroid is the flux-weighted coordinate sum divided by
the total flux. -/
def AddProps.centroidY (s : AddProps) : ℚ := s.sumfy / s.sumflux

/-- Modelled from the spec: SBAddImpl.h is not under src/; per spec
section 4.5 the upper band limit of the composite is the accumulated
maximum. -/
def AddProps.maxK (s : AddProps) : ℚ := s.maxMaxK

/-- Modelled from the spec: SBAddImpl.h is not under src/; per spec
section 4.5 the lower band limit of the composite is the accumulated
minimum. -/
def AddProps.stepK (s : AddProps) : ℚ := s.minStepK

/-- Modelled from the spec: SBAddImpl.h is not under src/; the flag
accessors report the accumulated conjunctions and disjunction. -/
def AddProps.isAxisymmetric (s : AddProps) : Bool := s.allAxisymmetric

/-- Modelled from the spec: SBAddImpl.h is not under src/; the flag
accessors report the accumulated conjunctions and disjunction. -/
def AddProps.isAnalyticX (s : AddProps) : Bool := s.allAnalyticX

/-- Modelled from the spec: SBAddImpl.h is not under src/; the flag
accessors report the accumulated conjunctions and disjunction. -/
def AddProps.isAnalyticK (s : AddProps) : Bool := s.allAnalyticK

/-- Modelled from the spec: SBAddImpl.h is not under src/; the flag
accessors report the accumulated conjunctions and disjunction. -/
def AddProps.hasHardEdges (s : AddProps) : Bool := s.anyHardEdges

lemma initFold_sumflux (l : List SBElem) (s : AddProps) :
    (l.foldl initStep s).sumflux = s.sumflux + (l.map SBElem.flux).sum := by
  induction l generalizing s with
  | nil => simp
  | cons p l ih => simp [ih, initStep, add_assoc]

lemma initFold_sumfx (l : List SBElem) (s : AddProps) :
    (l.foldl initStep s).sumfx = s.sumfx + (l.map (fun p => p.flux * p.centroidX)).sum := by
  induction l generalizing s with
  | nil => simp
  | cons p l ih => simp [ih, initStep, add_assoc]

lemma initFold_sumfy (l : List SBElem) (s : AddProps) :
    (l.foldl initStep s).sumfy = s.sumfy + (l.map (fun p => p.flux * p.centroidY)).sum := by
  induction l generalizing s with
  | nil => simp
  | cons p l ih => simp [ih, initStep, add_assoc]

lemma initFold_axisym (l : List SBElem) (s : AddProps) :
    (l.foldl initStep s).allAxisymmetric = (s.allAxisymmetric && l.all SBElem.axisymmetric) := by
  induction l generalizing s with
  | nil => simp
  | cons p l ih => simp [ih, initStep, Bool.and_assoc]

lemma initFold_analyticX (l : List SBElem) (s : AddProps) :
    (l.foldl initStep s).allAnalyticX = (s.allAnalyticX && l.all SBElem.analyticX) := by
  induction l generalizing s with
  | nil => simp
  | cons p l ih => simp [ih, initStep, Bool.and_assoc]

lemma initFold_analyticK (l : List SBElem) (s : AddProps) :
    (l.foldl initStep s).allAnalyticK = (s.allAnalyticK && l.all SBElem.analyticK) := by
  induction l generalizing s with
  | nil => simp
  | cons p l ih => simp [ih, initStep, Bool.and_assoc]

lemma initFold_hardEdges (l : List SBElem) (s : AddProps) :
    (l.foldl initStep s).anyHardEdges = (s.anyHardEdges || l.any SBElem.hardEdges) := by
  induction l generalizing s with
  | nil => simp
  | cons p l ih => simp [ih, initStep, Bool.or_assoc]

lemma maxStep_eq_max (a x : ℚ) : (if x > a then x else a) = max a x := by
  rcases le_or_lt x a with h | h
  · rw [if_neg (not_lt.mpr h), max_eq_left h]
  · rw [if_pos h, max_eq_right h.le]

lemma initFold_maxk (l : List SBElem) (s : AddProps) :
    (l.foldl initStep s).maxMaxK = l.foldl (fun a p => max a p.maxk) s.maxMaxK := by
  induction l generalizing s with
  | nil => rfl
  | cons p l ih => simp [ih, initStep, maxStep_eq_max]

lemma foldl_max_ge_init (l : List SBElem) (a : ℚ) :
    a ≤ l.foldl (fun x p => max x p.maxk) a := by
  induction l generalizing a with
  | nil => simp
  | cons p l ih => exact le_trans (le_max_left a p.maxk) (ih (max a p.maxk))

lemma foldl_max_ge_mem (l : List SBElem) (a : ℚ) :
    ∀ p ∈ l, p.maxk ≤ l.foldl (fun x q => max x q.maxk) a := by
  induction l generalizing a with
  | nil => simp
  | cons q l ih =>
      intro p hp
      rcases List.mem_cons.mp hp with h | h
      · subst h
        exact le_trans (le_max_right a p.maxk) (foldl_max_ge_init l (max a p.maxk))
      · exact ih (max a q.maxk) p h

lemma foldl_max_mem (l : List SBElem) (a : ℚ) :
    l.foldl (fun x p => max x p.maxk) a = a ∨
      l.foldl (fun x p => max x p.maxk) a ∈ l.map SBElem.maxk := by
  induction l generalizing a with
  | nil => left; rfl
  | cons p l ih =>
      rcases ih (max a p.maxk) with h | h
      · rcases max_choice a p.maxk with hm | hm
        · left; simpa [hm] using h
        · right; simp only [List.foldl_cons, List.map_cons, List.mem_cons]
          left; rw [h, hm]
      · right; simp only [List.foldl_cons, List.map_cons, List.mem_cons]
        right; exact h

lemma stepStep_eq_min (a x : ℚ) (ha : 0 < a) :
    (if a ≤ 0 ∨ x < a then x else a) = min a x := by
  rcases lt_or_le x a with h | h
  · rw [if_pos (Or.inr h), min_eq_right h.le]
  · rw [if_neg, min_eq_left h]
    push_neg
    exact ⟨ha, h⟩

lemma initFold_stepk (l : List SBElem) (s : AddProps) :
    (l.foldl initStep s).minStepK =
      l.foldl (fun a p => if a ≤ 0 ∨ p.stepk < a then p.stepk else a) s.minStepK := by
  induction l generalizing s with
  | nil => rfl
  | cons p l ih => simp [ih, initStep]

lemma foldl_stepk_char (l : List SBElem) :
    ∀ a : ℚ, 0 < a → (∀ p ∈ l, 0 < p.stepk) →
      (l.foldl (fun x p => if x ≤ 0 ∨ p.stepk < x then p.stepk else x) a = a ∨
        l.foldl (fun x p => if x ≤ 0 ∨ p.stepk < x then p.stepk else x) a ∈ l.map SBElem.stepk) ∧
      l.foldl (fun x p => if x ≤ 0 ∨ p.stepk < x then p.stepk else x) a ≤ a ∧
      (∀ p ∈ l, l.foldl (fun x p => if x ≤ 0 ∨ p.stepk < x then p.stepk else x) a ≤ p.stepk) ∧
      0 < l.foldl (fun x p => if x ≤ 0 ∨ p.stepk < x then p.stepk else x) a := by
  induction l with
  | nil => intro a ha _; exact ⟨Or.inl rfl, le_refl a, by simp, ha⟩
  | cons p l ih =>
      intro a ha hpos
      have hp : 0 < p.stepk := hpos p (List.mem_cons_self p l)
      have hrest : ∀ q ∈ l, 0 < q.stepk := fun q hq => hpos q (List.mem_cons_of_mem p hq)
      have hmin : 0 < min a p.stepk := lt_min ha hp
      have step1 : (if a ≤ 0 ∨ p.stepk < a then p.stepk else a) = min a p.stepk :=
        stepStep_eq_min a p.stepk ha
      obtain ⟨hmem, hle, hub, hpos2⟩ := ih (min a p.stepk) hmin hrest
      simp only [List.foldl_cons, step1]
      refine ⟨?_, ?_, ?_, hpos2⟩
      · rcases hmem with h | h
        · rcases min_choice a p.stepk with hm | hm
          · left; rw [h, hm]
          · right; simp only [List.map_cons, List.mem_cons]; left; rw [h, hm]
        · right; simp only [List.map_cons, List.mem_cons]; right; exact h
      · exact le_trans hle (min_le_left a p.stepk)
      · intro q hq
        rcases List.mem_cons.mp hq with h | h
        · subst h; exact le_trans hle (min_le_right a q.stepk)
        · exact hub q h

/-- C1: for every composite profile the reduced properties computed at
construction equal one-pass reductions over its member list: getFlux is
the sum of member fluxes; the centroid is the flux-weighted sum of member
centroids divided by the total flux; maxK is the maximum of the member
maxK values; stepK is the minimum of the member (positive) stepK values;
the axisymmetric and the two analyticity flags are conjunctions and the
hard-edge flag is the disjunction of the member flags. -/
theorem claim_C1 (plist : List SBElem) (hne : plist ≠ [])
    (hmaxk : ∀ p ∈ plist, 0 ≤ p.maxk)
    (hstepk : ∀ p ∈ plist, 0 < p.stepk)
    (hflux : (plist.map SBElem.flux).sum ≠ 0) :
    (initProps plist).getFlux = (plist.map SBElem.flux).sum ∧
    (initProps plist).centroidX
      = (plist.map (fun p => p.flux * p.centroidX)).sum / (plist.map SBElem.flux).sum ∧
    (initProps plist).centroidY
      = (plist.map (fun p => p.flux * p.centroidY)).sum / (plist.map SBElem.flux).sum ∧
    ((initProps plist).maxK ∈ plist.map SBElem.maxk ∧
      ∀ p ∈ plist, p.maxk ≤ (initProps plist).maxK) ∧
    ((initProps plist).stepK ∈ plist.map SBElem.stepk ∧
      ∀ p ∈ plist, (initProps plist).stepK ≤ p.stepk) ∧
    (initProps plist).isAxisymmetric = plist.all SBElem.axisymmetric ∧
    (initProps plist).isAnalyticX = plist.all SBElem.analyticX ∧
    (initProps plist).isAnalyticK = plist.all SBElem.analyticK ∧
    (initProps plist).hasHardEdges = plist.any SBElem.hardEdges := by
  have hflux0 : (initProps plist).sumflux = (plist.map SBElem.flux).sum := by
    simp [initProps, initFold_sumflux, initZero]
  have hfx : (initProps plist).sumfx = (plist.map (fun p => p.flux * p.centroidX)).sum := by
    simp [initProps, initFold_sumfx, initZero]
  have hfy : (initProps plist).sumfy = (plist.map (fun p => p.flux * p.centroidY)).sum := by
    simp [initProps, initFold_sumfy, initZero]
  refine ⟨hflux0, ?_, ?_, ?_, ?_, ?_, ?_, ?_, ?_⟩
  · simp only [AddProps.centroidX, hflux0, hfx]
  · simp only [AddProps.centroidY, hflux0, hfy]
  · have hM : (initProps plist).maxMaxK = plist.foldl (fun a p => max a p.maxk) 0 := by
      simp [initProps, initFold_maxk, initZero]
    refine ⟨?_, ?_⟩
    · rcases foldl_max_mem plist 0 with h | h
      · obtain ⟨p0, hp0⟩ := List.exists_mem_of_ne_nil plist hne
        have h1 : p0.maxk ≤ plist.foldl (fun a p => max a p.maxk) 0 :=
          foldl_max_ge_mem plist 0 p0 hp0
        have h2 : 0 ≤ p0.maxk := hmaxk p0 hp0
        have h3 : plist.foldl (fun a p => max a p.maxk) 0 = p0.maxk := by
          have h4 : p0.maxk ≤ 0 := h ▸ h1
          rw [h]
          linarith
        simp only [AddProps.maxK, hM, h3]
        exact List.mem_map_of_mem SBElem.maxk hp0
      · simp only [AddProps.maxK, hM]
        exact h
    · intro p hp
      simp only [AddProps.maxK, hM]
      exact foldl_max_ge_mem plist 0 p hp
  · obtain ⟨p0, rest, rfl⟩ := List.exists_cons_of_ne_nil hne
    have hp0 : 0 < p0.stepk := hstepk p0 (List.mem_cons_self p0 rest)
    have hrest : ∀ q ∈ rest, 0 < q.stepk :=
      fun q hq => hstepk q (List.mem_cons_of_mem p0 hq)
    have hS : (initProps (p0 :: rest)).minStepK
        = rest.foldl (fun a p => if a ≤ 0 ∨ p.stepk < a then p.stepk else a) p0.stepk := by
      simp only [initProps, initFold_stepk, initZero, List.foldl_cons]
      congr 1
    obtain ⟨hmem, hle, hub, _⟩ := foldl_stepk_char rest p0.stepk hp0 hrest
    refine ⟨?_, ?_⟩
    · simp only [AddProps.stepK, hS]
      rcases hmem with h | h
      · rw [h]
        exact List.mem_map_of_mem SBElem.stepk (List.mem_cons_self p0 rest)
      · simp only [List.map_cons, List.mem_cons]
        right
        exact h
    · intro q hq
      simp only [AddProps.stepK, hS]
      rcases List.mem_cons.mp hq with h | h
      · subst h
        exact hle
      · exact hub q h
  · simp [AddProps.isAxisymmetric, initProps, initFold_axisym, initZero]
  · simp [AddProps.isAnalyticX, initProps, initFold_analyticX, initZero]
  · simp [AddProps.isAnalyticK, initProps, initFold_analyticK, initZero]
  · simp [AddProps.hasHardEdges, initProps, initFold_hardEdges, initZero]

/-- Sample member used to instantiate theorems on concrete inputs. -/
def elemA : SBElem :=
  { flux := 2, centroidX := 1, centroidY := -1, maxk := 3, stepk := 1,
    axisymmetric := true, analyticX := true, analyticK := false, hardEdges := false,
    positiveFlux := 2, negativeFlux := 0,
    shootFn := fun n => List.replicate n { x := 0, y := 0, flux := 2 } }

/-- Second sample member used to instantiate theorems on concrete inputs. -/
def elemB : SBElem :=
  { flux := 1, centroidX := 4, centroidY := 0, maxk := 2, stepk := 5,
    axisymmetric := false, analyticX := true, analyticK := true, hardEdges := true,
    positiveFlux := 1, negativeFlux := 0,
    shootFn := fun n => List.replicate n { x := 1, y := 1, flux := 1 } }

/-- Witness for C1 at the concrete two-member list [elemA, elemB]. -/
theorem claim_C1_witness :
    ([elemA, elemB] ≠ [] ∧ (∀ p ∈ [elemA, elemB], 0 ≤ p.maxk) ∧
      (∀ p ∈ [elemA, elemB], 0 < p.stepk) ∧
      ([elemA, elemB].map SBElem.flux).sum ≠ 0) ∧
    ((initProps [elemA, elemB]).getFlux = ([elemA, elemB].map SBElem.flux).sum ∧
    (initProps [elemA, elemB]).centroidX
      = ([elemA, elemB].map (fun p => p.flux * p.centroidX)).sum
          / ([elemA, elemB].map SBElem.flux).sum ∧
    (initProps [elemA, elemB]).centroidY
      = ([elemA, elemB].map (fun p => p.flux * p.centroidY)).sum
          / ([elemA, elemB].map SBElem.flux).sum ∧
    ((initProps [elemA, elemB]).maxK ∈ [elemA, elemB].map SBElem.maxk ∧
      ∀ p ∈ [elemA, elemB], p.maxk ≤ (initProps [elemA, elemB]).maxK) ∧
    ((initProps [elemA, elemB]).stepK ∈ [elemA, elemB].map SBElem.stepk ∧
      ∀ p ∈ [elemA, elemB], (initProps [elemA, elemB]).stepK ≤ p.stepk) ∧
    (initProps [elemA, elemB]).isAxisymmetric = [elemA, elemB].all SBElem.axisymmetric ∧
    (initProps [elemA, elemB]).isAnalyticX = [elemA, elemB].all SBElem.analyticX ∧
    (initProps [elemA, elemB]).isAnalyticK = [elemA, elemB].all SBElem.analyticK ∧
    (initProps [elemA, elemB]).hasHardEdges = [elemA, elemB].any SBElem.hardEdges) := by
  have h1 : ([elemA, elemB] : List SBElem) ≠ [] := by simp
  have h2 : ∀ p ∈ [elemA, elemB], 0 ≤ p.maxk := by
    intro p hp
    rcases List.mem_cons.mp hp with h | h
    · subst h; norm_num [elemA]
    · rcases List.mem_cons.mp h with h | h
      · subst h; norm_num [elemB]
      · simp at h
  have h3 : ∀ p ∈ [elemA, elemB], 0 < p.stepk := by
    intro p hp
    rcases List.mem_cons.mp hp with h | h
    · subst h; norm_num [elemA]
    · rcases List.mem_cons.mp h with h | h
      · subst h; norm_num [elemB]
      · simp at h
  have h4 : ([elemA, elemB].map SBElem.flux).sum ≠ 0 := by
    norm_num [elemA, elemB]
  exact ⟨⟨h1, h2, h3, h4⟩, claim_C1 [elemA, elemB] h1 h2 h3 h4⟩

lemma addMember_eq (l : List SBProfile) (p : SBProfile) :
    addMember l p = l ++ p.summands := by
  cases p <;> rfl

lemma mkSBAddPlist_from (slist : List SBProfile) :
    ∀ acc : List SBProfile,
      slist.foldl addMember acc = acc ++ (slist.map SBProfile.summands).flatten := by
  induction slist with
  | nil => intro acc; simp
  | cons p l ih =>
      intro acc
      simp [addMember_eq, ih, List.append_assoc]

lemma mkSBAddPlist_eq (slist : List SBProfile) :
    mkSBAddPlist slist = (slist.map SBProfile.summands).flatten := by
  simpa using mkSBAddPlist_from slist []

/-- C2: composite construction flattens nested composites.  For all
profiles A, B and C, building a composite from [A, composite(B, C)]
yields exactly the member list of building one directly from [A, B, C];
when A, B and C are non-composite the list is literally [A, B, C]; and a
composite constructed from profiles that are themselves well-formed (no
composite among their own members) never stores a composite as a
member. -/
theorem claim_C2 (A B C : SBProfile) :
    getObjs (mkSBAdd [A, mkSBAdd [B, C]]) = getObjs (mkSBAdd [A, B, C]) ∧
    (A.isComposite = false → B.isComposite = false → C.isComposite = false →
      getObjs (mkSBAdd [A, mkSBAdd [B, C]]) = [A, B, C]) ∧
    (∀ slist : List SBProfile, (∀ p ∈ slist, p.flatMembers = true) →
      ∀ q ∈ getObjs (mkSBAdd slist), q.isComposite = false) := by
  refine ⟨?_, ?_, ?_⟩
  · show mkSBAddPlist [A, mkSBAdd [B, C]] = mkSBAddPlist [A, B, C]
    simp [mkSBAddPlist_eq, mkSBAdd, SBProfile.summands, List.append_assoc]
  · intro hA hB hC
    cases A with
    | sbadd ps => simp [SBProfile.isComposite] at hA
    | base eA =>
        cases B with
        | sbadd ps => simp [SBProfile.isComposite] at hB
        | base eB =>
            cases C with
            | sbadd ps => simp [SBProfile.isComposite] at hC
            | base eC =>
                show mkSBAddPlist [SBProfile.base eA,
                  mkSBAdd [SBProfile.base eB, SBProfile.base eC]] = _
                simp [mkSBAddPlist_eq, mkSBAdd, SBProfile.summands]
  · intro slist hwf q hq
    have hq2 : q ∈ (slist.map SBProfile.summands).flatten := by
      simpa [mkSBAdd, getObjs, mkSBAddPlist_eq] using hq
    rw [List.mem_flatten] at hq2
    obtain ⟨l, hl, hql⟩ := hq2
    rw [List.mem_map] at hl
    obtain ⟨p, hp, rfl⟩ := hl
    have hpwf := hwf p hp
    cases p with
    | base e =>
        simp only [SBProfile.summands, List.mem_singleton] at hql
        subst hql
        rfl
    | sbadd ps =>
        simp only [SBProfile.flatMembers, List.all_eq_true] at hpwf
        have := hpwf q hql
        simpa using this

/-- Witness for C2 at three concrete non-composite profiles. -/
theorem claim_C2_witness :
    getObjs (mkSBAdd [SBProfile.base elemA,
        mkSBAdd [SBProfile.base elemB, SBProfile.base elemA]])
      = [SBProfile.base elemA, SBProfile.base elemB, SBProfile.base elemA] :=
  (claim_C2 (SBProfile.base elemA) (SBProfile.base elemB)
    (SBProfile.base elemA)).2.1 rfl rfl rfl

/-- Absolute flux of a member as SBAdd uses it (SBAdd.cpp lines 224 and
236): getPositiveFlux() plus getNegativeFlux(). -/
def SBElem.absFlux (p : SBElem) : ℚ := p.positiveFlux + p.negativeFlux

/-- Behaviour of PhotonArray::scaleFlux as invoked on line 252 of
SBAdd.cpp: multiply the flux weight of every photon by the factor
(PhotonArray itself is not under src/; this is the scaling the spec and
the call site describe). -/
def scaleFlux (ps : List Photon) (s : ℚ) : List Photon :=
  ps.map (fun p => { p with flux := p.flux * s })

/-- Photon sample set as SBAdd::SBAddImpl::shoot produces it: the merged
photon list and the correlation flag. -/
structure PhotonArray where
  photons : List Photon
  correlated : Bool
deriving DecidableEq, Repr

/-- Loop of SBAdd::SBAddImpl::shoot (SBAdd.cpp lines 235-259) translated
to structural recursion over the member list.  The binomial deviate is
modelled as a function bd from (member position, trials, success
probability) to the drawn count, which covers every possible sequence of
draws of the injected random source; the remaining photon count is kept
as an integer exactly as in the source. -/
def shootLoop (bd : ℕ → ℕ → ℚ → ℕ) (fluxPerPhoton : ℚ) :
    List SBElem → ℕ → ℤ → ℚ → List Photon
  | [], _, _, _ => []
  | p :: rest, idx, remainingN, remainingAbsFlux =>
      let thisAbsFlux := p.absFlux
      let thisN : ℤ :=
        if rest.isEmpty then remainingN
        else (bd idx remainingN.toNat (thisAbsFlux / remainingAbsFlux) : ℤ)
      let contrib : List Photon :=
        if 0 < thisN
        then scaleFlux (p.shootFn thisN.toNat) (fluxPerPhoton * (thisN : ℚ) / thisAbsFlux)
        else []
      if remainingN - thisN ≤ 0 ∨ remainingAbsFlux - thisAbsFlux ≤ 0 then contrib
      else contrib ++ shootLoop bd fluxPerPhoton rest (idx + 1) (remainingN - thisN)
            (remainingAbsFlux - thisAbsFlux)

/-- Translation of SBAdd::SBAddImpl::shoot (SBAdd.cpp lines 220-267):
compute the total absolute flux and the nominal flux per photon, let the
loop distribute the N photons over the members, and mark the result
correlated exactly when the member list has more than one element (line
264). -/
def sbaddShoot (plist : List SBElem) (bd : ℕ → ℕ → ℚ → ℕ) (N : ℕ) : PhotonArray :=
  let totalAbsFlux := (plist.map SBElem.absFlux).sum
  let fluxPerPhoton := totalAbsFlux / (N : ℚ)
  { photons := shootLoop bd fluxPerPhoton plist 0 (N : ℤ) totalAbsFlux
    correlated := decide (1 < plist.length) }

/-- Allocation of photon counts to members in list order as the claim
words it: every member except the last receives the binomial draw with
trials equal to the photons remaining and success probability equal to
its absolute flux divided by the absolute flux remaining over the
not-yet-processed members; the last member receives all remaining
photons; the walk stops early when the remaining photon count or the
remaining absolute flux reaches zero. -/
def allocCounts (bd : ℕ → ℕ → ℚ → ℕ) :
    List SBElem → ℕ → ℤ → ℚ → List (SBElem × ℤ)
  | [], _, _, _ => []
  | [p], _, remainingN, _ => [(p, remainingN)]
  | p :: q :: rest, idx, remainingN, remainingAbsFlux =>
      let thisN : ℤ := (bd idx remainingN.toNat (p.absFlux / remainingAbsFlux) : ℤ)
      (p, thisN) ::
        (if remainingN - thisN ≤ 0 ∨ remainingAbsFlux - p.absFlux ≤ 0 then []
         else allocCounts bd (q :: rest) (idx + 1) (remainingN - thisN)
                (remainingAbsFlux - p.absFlux))

/-- Sub-sample one member contributes, as the claim words it: for a
positive allocated count, the member sample with every weight rescaled by
the nominal flux per photon times the count divided by the member
absolute flux; otherwise nothing. -/
def memberContribution (fluxPerPhoton : ℚ) (pc : SBElem × ℤ) : List Photon :=
  if 0 < pc.2
  then scaleFlux (pc.1.shootFn pc.2.toNat) (fluxPerPhoton * (pc.2 : ℚ) / pc.1.absFlux)
  else []

/-- Photon list of the composite shoot as the claim describes it: allocate
counts in list order, then concatenate the rescaled member sub-samples. -/
def shootSpecPhotons (plist : List SBElem) (bd : ℕ → ℕ → ℚ → ℕ) (N : ℕ) : List Photon :=
  let totalAbsFlux := (plist.map SBElem.absFlux).sum
  let fluxPerPhoton := totalAbsFlux / (N : ℚ)
  ((allocCounts bd plist 0 (N : ℤ) totalAbsFlux).map (memberContribution fluxPerPhoton)).flatten

lemma shootLoop_cons (bd : ℕ → ℕ → ℚ → ℕ) (fpp : ℚ) (p : SBElem) (rest : List SBElem)
    (idx : ℕ) (remN : ℤ) (remAbs : ℚ) :
    shootLoop bd fpp (p :: rest) idx remN remAbs =
      (let thisAbsFlux := p.absFlux
       let thisN : ℤ :=
         if rest.isEmpty then remN
         else (bd idx remN.toNat (thisAbsFlux / remAbs) : ℤ)
       let contrib : List Photon :=
         if 0 < thisN
         then scaleFlux (p.shootFn thisN.toNat) (fpp * (thisN : ℚ) / thisAbsFlux)
         else []
       if remN - thisN ≤ 0 ∨ remAbs - thisAbsFlux ≤ 0 then contrib
       else contrib ++ shootLoop bd fpp rest (idx + 1) (remN - thisN)
             (remAbs - thisAbsFlux)) := rfl

lemma allocCounts_one (bd : ℕ → ℕ → ℚ → ℕ) (p : SBElem) (idx : ℕ) (remN : ℤ) (remAbs : ℚ) :
    allocCounts bd [p] idx remN remAbs = [(p, remN)] := rfl

lemma allocCounts_pair (bd : ℕ → ℕ → ℚ → ℕ) (p q : SBElem) (rest : List SBElem)
    (idx : ℕ) (remN : ℤ) (remAbs : ℚ) :
    allocCounts bd (p :: q :: rest) idx remN remAbs =
      (let thisN : ℤ := (bd idx remN.toNat (p.absFlux / remAbs) : ℤ)
       (p, thisN) ::
         (if remN - thisN ≤ 0 ∨ remAbs - p.absFlux ≤ 0 then []
          else allocCounts bd (q :: rest) (idx + 1) (remN - thisN)
                 (remAbs - p.absFlux))) := rfl

lemma shootLoop_eq_alloc (bd : ℕ → ℕ → ℚ → ℕ) (fpp : ℚ) :
    ∀ (l : List SBElem) (idx : ℕ) (remN : ℤ) (remAbs : ℚ),
      shootLoop bd fpp l idx remN remAbs
        = ((allocCounts bd l idx remN remAbs).map (memberContribution fpp)).flatten := by
  intro l
  induction l with
  | nil => intro idx remN remAbs; rfl
  | cons p rest ih =>
      intro idx remN remAbs
      cases rest with
      | nil =>
          rw [shootLoop_cons, allocCounts_one, List.map_cons, List.map_nil,
            List.flatten_cons, List.flatten_nil]
          have hmc : memberContribution fpp (p, remN)
              = (if 0 < remN
                 then scaleFlux (p.shootFn remN.toNat) (fpp * (remN : ℚ) / p.absFlux)
                 else []) := rfl
          simp [hmc]
      | cons q rest2 =>
          rw [shootLoop_cons, allocCounts_pair]
          simp only [List.isEmpty_cons, Bool.false_eq_true, if_false, List.map_cons,
            List.flatten_cons]
          have hmc : memberContribution fpp (p, ((bd idx remN.toNat (p.absFlux / remAbs) : ℕ) : ℤ))
              = (if 0 < ((bd idx remN.toNat (p.absFlux / remAbs) : ℕ) : ℤ)
                 then scaleFlux
                   (p.shootFn (((bd idx remN.toNat (p.absFlux / remAbs) : ℕ) : ℤ)).toNat)
                   (fpp * (((bd idx remN.toNat (p.absFlux / remAbs) : ℕ) : ℤ) : ℚ) / p.absFlux)
                 else []) := rfl
          rw [hmc]
          split_ifs <;> first
            | rw [ih]
            | simp

/-- C3: shoot of a composite allocates photons to members in list order,
drawing the count for every member except the last from the injected
binomial deviate with trials equal to the photons remaining and success
probability equal to the member absolute flux over the absolute flux
remaining across not-yet-processed members, giving the last member all
remaining photons, rescaling each sub-sample weight by the nominal flux
per photon (total absolute flux over N) times the drawn count divided by
the member absolute flux, and halting as soon as the remaining count or
the remaining absolute flux reaches zero: the photon list the code
produces equals the two-phase allocate-then-merge description. -/
theorem claim_C3 (plist : List SBElem) (bd : ℕ → ℕ → ℚ → ℕ) (N : ℕ) (hN : 0 < N) :
    (sbaddShoot plist bd N).photons = shootSpecPhotons plist bd N := by
  simp only [sbaddShoot, shootSpecPhotons]
  exact shootLoop_eq_alloc bd _ plist 0 (N : ℤ) _

/-- Binomial draw model that returns two, capped by the trials. -/
def bdHalf : ℕ → ℕ → ℚ → ℕ := fun _ n _ => min 2 n

/-- Witness for C3 at the concrete two-member list and N = 4. -/
theorem claim_C3_witness :
    0 < 4 ∧ (sbaddShoot [elemA, elemB] bdHalf 4).photons
      = shootSpecPhotons [elemA, elemB] bdHalf 4 :=
  ⟨by decide, claim_C3 [elemA, elemB] bdHalf 4 (by decide)⟩

/-- Number of members that actually contribute a nonempty rescaled
sub-sample to the merged photon set of the composite shoot. -/
def contributingMembers (plist : List SBElem) (bd : ℕ → ℕ → ℚ → ℕ) (N : ℕ) : ℕ :=
  let totalAbsFlux := (plist.map SBElem.absFlux).sum
  let fluxPerPhoton := totalAbsFlux / (N : ℚ)
  (((allocCounts bd plist 0 (N : ℤ) totalAbsFlux).map
      (memberContribution fluxPerPhoton)).filter (fun ps => !ps.isEmpty)).length

/-- Binomial draw model that always returns all of the trials (a draw any
binomial deviate with success probability strictly between zero and one
produces with positive probability). -/
def bdAll : ℕ → ℕ → ℚ → ℕ := fun _ n _ => n

lemma allocCounts_length_le (bd : ℕ → ℕ → ℚ → ℕ) :
    ∀ (l : List SBElem) (idx : ℕ) (remN : ℤ) (remAbs : ℚ),
      (allocCounts bd l idx remN remAbs).length ≤ l.length := by
  intro l
  induction l with
  | nil => intro idx remN remAbs; simp [allocCounts]
  | cons p rest ih =>
      intro idx remN remAbs
      cases rest with
      | nil => simp [allocCounts_one]
      | cons q rest2 =>
          rw [allocCounts_pair]
          simp only [List.length_cons]
          split_ifs with h
          · simp
          · exact Nat.succ_le_succ (ih (idx + 1) _ (remAbs - p.absFlux))

/-- Counterexample to C4 as stated: on the two-member composite
[elemA, elemB] with three photons and a binomial draw that allocates all
three photons to the first member, only one member contributes to the
merged sample set, yet the code (SBAdd.cpp lines 263-264) marks the
result correlated because the member list has more than one element. -/
theorem claim_C4_cex :
    contributingMembers [elemA, elemB] bdAll 3 = 1 ∧
    (sbaddShoot [elemA, elemB] bdAll 3).correlated = true := by
  constructor
  · rfl
  · rfl

/-- C4 as amended: the composite shoot marks its output correlated
exactly when the member list has more than one element, regardless of how
many members actually contributed photons; in particular the direction of
the original claim that does hold is that more than one contributing
member forces the flag (because the contributing members are among the
list members), while a multi-member list with a single contributor is
still flagged. -/
theorem claim_C4 (plist : List SBElem) (bd : ℕ → ℕ → ℚ → ℕ) (N : ℕ) :
    ((sbaddShoot plist bd N).correlated = decide (1 < plist.length)) ∧
    (1 < contributingMembers plist bd N → (sbaddShoot plist bd N).correlated = true) := by
  constructor
  · rfl
  · intro h
    have h1 : contributingMembers plist bd N
        = (((allocCounts bd plist 0 (N : ℤ) ((plist.map SBElem.absFlux).sum)).map
            (memberContribution (((plist.map SBElem.absFlux).sum) / (N : ℚ)))).filter
            (fun ps => !ps.isEmpty)).length := rfl
    have hle : contributingMembers plist bd N ≤ plist.length := by
      rw [h1]
      have h2 := List.length_filter_le (fun ps : List Photon => !ps.isEmpty)
        ((allocCounts bd plist 0 (N : ℤ) ((plist.map SBElem.absFlux).sum)).map
          (memberContribution (((plist.map SBElem.absFlux).sum) / (N : ℚ))))
      have h3 : ((allocCounts bd plist 0 (N : ℤ) ((plist.map SBElem.absFlux).sum)).map
          (memberContribution (((plist.map SBElem.absFlux).sum) / (N : ℚ)))).length
          = (allocCounts bd plist 0 (N : ℤ) ((plist.map SBElem.absFlux).sum)).length := by
        simp
      have h4 := allocCounts_length_le bd plist 0 (N : ℤ) ((plist.map SBElem.absFlux).sum)
      omega
    exact decide_eq_true (lt_of_lt_of_le h hle)

/-- Translation of the SBAdd::SBAddImpl constructor (SBAdd.cpp lines
57-64) into an error-aware result type so that the claimed rejection can
be stated: a thrown ConfigurationError would appear as the none branch.
The constructor body contains no check on the member list at all: it
builds _plist by calling add on every input element and then accumulates
the reduced properties, so every input, the empty list included, yields a
constructed composite.  The model covers calls that pass an explicit
GSParams handle; with a null handle the source additionally dereferences
slist.front(), which on an empty list is undefined behaviour, not a
ConfigurationError. -/
def mkSBAddImplChecked (slist : List SBProfile) : Option SBProfile :=
  some (mkSBAdd slist)

/-- C9 evaluated at the failing input: constructing a composite from the
empty member list is not rejected; the constructor returns a composite
with an empty member list instead of failing with a ConfigurationError. -/
theorem claim_C9_eval :
    mkSBAddImplChecked [] = some (SBProfile.sbadd []) ∧
    ∀ slist : List SBProfile, (mkSBAddImplChecked slist).isSome = true := by
  constructor
  · rfl
  · intro slist; rfl

/-- Gamma(nu+1) as the SpergelInfo constructor computes it with
std::tgamma (part_000 line 259). -/
noncomputable def gammaNup1 (nu : ℝ) : ℝ := Real.Gamma (nu + 1)

/-- Gamma(nu+2) as the SpergelInfo constructor computes it (line 260):
Gamma(nu+1) times (nu+1). -/
noncomputable def gammaNup2 (nu : ℝ) : ℝ := gammaNup1 nu * (nu + 1)

/-- Modelled from the spec: the constants sbp::minimum_spergel_nu and
sbp::maximum_spergel_nu checked by the SpergelInfo constructor (part_000
lines 266-267) are defined outside src/; the bracket comment at line 312
of the source documents the valid range as -0.85 to 4.0, which this
predicate adopts. -/
def validNu (nu : ℝ) : Prop := -0.85 ≤ nu ∧ nu ≤ 4.0

/-- Normalisation at r = 0 stored by the SpergelInfo constructor (line
261): for positive nu the finite limit Gamma(nu+1)/(2 nu) times 2^nu of
the radial profile at the origin, and the IEEE INFINITY otherwise,
modelled in the extended reals with the top element standing for
INFINITY. -/
noncomputable def xnorm0 (nu : ℝ) : EReal :=
  if nu > 0 then ((gammaNup1 nu / (2 * nu) * (2 : ℝ) ^ nu : ℝ) : EReal) else ⊤

/-- Translation of SpergelInfo::xValue (part_000 lines 369-373): the
precomputed constant at r = 0, otherwise K_nu(r) times r^nu, with the
Bessel evaluator math::cyl_bessel_k (not under src/) passed in as a
parameter. -/
noncomputable def spergelXValue (besselK : ℝ → ℝ → ℝ) (nu r : ℝ) : EReal :=
  if r = 0 then xnorm0 nu else ((besselK nu r * r ^ nu : ℝ) : EReal)

/-- Counterexample to C7 as stated: nu = -1/2 is inside the valid Spergel
range and xValue at r = 0 does return the precomputed constant, but that
constant is the IEEE INFINITY (top of the extended reals), not a finite
value: the finite-limit formula is only used for nu > 0 (part_000 line
261). -/
theorem claim_C7_cex :
    validNu (-(1/2)) ∧
    spergelXValue (fun _ _ => 0) (-(1/2)) 0 = xnorm0 (-(1/2)) ∧
    xnorm0 (-(1/2)) = ⊤ := by
  refine ⟨⟨by norm_num, by norm_num⟩, ?_, ?_⟩
  · unfold spergelXValue
    rw [if_pos rfl]
  · unfold xnorm0
    rw [if_neg]
    norm_num

/-- C7 as amended: for every valid nu, real-space evaluation at
normalized radius zero substitutes the precomputed constant _xnorm0
instead of evaluating the indeterminate closed form; the constant is
finite exactly when nu > 0, while for nu ≤ 0 the stored value is the
IEEE INFINITY (the profile truly diverges at the origin there). -/
theorem claim_C7 (besselK : ℝ → ℝ → ℝ) (nu : ℝ) (hv : validNu nu) :
    spergelXValue besselK nu 0 = xnorm0 nu ∧
    (0 < nu → xnorm0 nu ≠ ⊤ ∧ xnorm0 nu ≠ ⊥) ∧
    (nu ≤ 0 → xnorm0 nu = ⊤) := by
  refine ⟨?_, ?_, ?_⟩
  · unfold spergelXValue
    rw [if_pos rfl]
  · intro h
    unfold xnorm0
    rw [if_pos h]
    exact ⟨EReal.coe_ne_top _, EReal.coe_ne_bot _⟩
  · intro h
    unfold xnorm0
    rw [if_neg (not_lt.mpr h)]

/-- Witness for the amended C7 at nu = 1. -/
theorem claim_C7_witness :
    validNu 1 ∧
    (spergelXValue (fun _ _ => 0) 1 0 = xnorm0 1 ∧
      (0 < (1:ℝ) → xnorm0 1 ≠ ⊤ ∧ xnorm0 1 ≠ ⊥) ∧
      ((1:ℝ) ≤ 0 → xnorm0 1 = ⊤)) := by
  have hv : validNu 1 := ⟨by norm_num, by norm_num⟩
  exact ⟨hv, claim_C7 (fun _ _ => 0) 1 hv⟩

/-- Radius type selector of the SBSpergel constructor (SBSpergel.h). -/
inductive RadiusType where
  | HALF_LIGHT_RADIUS
  | SCALE_RADIUS
deriving DecidableEq, Repr

/-- Per-instance state set up by the SBSpergelImpl constructor. -/
structure SpergelImplState where
  nu : ℝ
  flux : ℝ
  r0 : ℝ
  re : ℝ
  r0_sq : ℝ
  inv_r0 : ℝ
  shootnorm : ℝ
  xnorm : ℝ

/-- Translation of SpergelInfo::getXNorm (part_000 lines 366-367). -/
noncomputable def infoGetXNorm (nu : ℝ) : ℝ :=
  (2 : ℝ) ^ (-nu) / gammaNup1 nu / (2 * Real.pi)

/-- Translation of the SBSpergelImpl constructor (part_000 lines 80-113):
the switch on the radius type sets the half-light radius _re and the
scale radius _r0 from the supplied size and the Shape-Info half-light
radius hlr (in units of the scale radius), then derives the per-instance
constants _r0_sq, _inv_r0, _shootnorm and _xnorm.  The value hlr comes
from the root solver via SpergelInfo::getHLR and is passed in as a
parameter. -/
noncomputable def mkSpergelImpl (nu size : ℝ) (rType : RadiusType) (flux hlr : ℝ) :
    SpergelImplState :=
  let re := match rType with
    | RadiusType.HALF_LIGHT_RADIUS => size
    | RadiusType.SCALE_RADIUS => size * hlr
  let r0 := match rType with
    | RadiusType.HALF_LIGHT_RADIUS => size / hlr
    | RadiusType.SCALE_RADIUS => size
  { nu := nu, flux := flux, r0 := r0, re := re,
    r0_sq := r0 * r0, inv_r0 := 1 / r0,
    shootnorm := flux * infoGetXNorm nu,
    xnorm := flux * infoGetXNorm nu / (r0 * r0) }

/-- Accessor getHalfLightRadius of SBSpergelImpl (SBSpergelImpl.h line
159): the stored _re. -/
def SpergelImplState.getHalfLightRadius (s : SpergelImplState) : ℝ := s.re

/-- Accessor getScaleRadius of SBSpergelImpl (SBSpergelImpl.h line 161):
the stored _r0. -/
def SpergelImplState.getScaleRadius (s : SpergelImplState) : ℝ := s.r0

/-- C10: for every successfully constructed Spergel instance, whichever
radius type was supplied, getHalfLightRadius equals getScaleRadius times
the Shape-Info half-light radius: supplying the size as a half-light
radius yields scale radius size/hlr, and supplying it as a scale radius
yields half-light radius size times hlr. -/
theorem claim_C10 (nu size : ℝ) (rType : RadiusType) (flux hlr : ℝ) (hhlr : hlr ≠ 0) :
    (mkSpergelImpl nu size rType flux hlr).getHalfLightRadius
      = (mkSpergelImpl nu size rType flux hlr).getScaleRadius * hlr ∧
    (rType = RadiusType.HALF_LIGHT_RADIUS →
      (mkSpergelImpl nu size rType flux hlr).getScaleRadius = size / hlr) ∧
    (rType = RadiusType.SCALE_RADIUS →
      (mkSpergelImpl nu size rType flux hlr).getHalfLightRadius = size * hlr) := by
  cases rType with
  | HALF_LIGHT_RADIUS =>
      refine ⟨?_, ?_, ?_⟩
      · show size = size / hlr * hlr
        field_simp
      · intro _
        rfl
      · intro h
        exact absurd h (by decide)
  | SCALE_RADIUS =>
      refine ⟨rfl, ?_, ?_⟩
      · intro h
        exact absurd h (by decide)
      · intro _
        rfl

/-- Witness for C10 at nu = 1, size = 3, scale-radius type, hlr = 2. -/
theorem claim_C10_witness :
    (2:ℝ) ≠ 0 ∧
    ((mkSpergelImpl 1 3 RadiusType.SCALE_RADIUS 1 2).getHalfLightRadius
      = (mkSpergelImpl 1 3 RadiusType.SCALE_RADIUS 1 2).getScaleRadius * 2 ∧
    (RadiusType.SCALE_RADIUS = RadiusType.HALF_LIGHT_RADIUS →
      (mkSpergelImpl 1 3 RadiusType.SCALE_RADIUS 1 2).getScaleRadius = 3 / 2) ∧
    (RadiusType.SCALE_RADIUS = RadiusType.SCALE_RADIUS →
      (mkSpergelImpl 1 3 RadiusType.SCALE_RADIUS 1 2).getHalfLightRadius = 3 * 2)) :=
  ⟨by norm_num, claim_C10 1 3 RadiusType.SCALE_RADIUS 1 2 (by norm_num)⟩

/-- Translation of SpergelInfo::stepK (part_000 lines 335-346) with the
root-solver output R (the radius enclosing 1 - folding_threshold of the
flux, as calculateFluxRadius returns it, in units of the scale radius)
passed in as a parameter: the code floors R at the raw configuration
value stepk_minimum_hlr and returns pi over the floored radius. -/
noncomputable def spergelStepK (R stepk_minimum_hlr : ℝ) : ℝ :=
  Real.pi / max R stepk_minimum_hlr

/-- Formula the claim (and the source comment, Go to at least 5*re)
states: the floor is the configured minimum multiple of the half-light
radius, stepk_minimum_hlr times hlr. -/
noncomputable def spergelStepKClaim (R stepk_minimum_hlr hlr : ℝ) : ℝ :=
  Real.pi / max R (stepk_minimum_hlr * hlr)

/-- C6 evaluated at a failing input: with flux radius R = 1, configured
minimum stepk_minimum_hlr = 5 and half-light radius 2 (all in units of
the scale radius), the code yields pi/5 while the claimed formula
requires pi/10; the two disagree, so the code floors at the raw
configuration value and not at the claimed multiple of the half-light
radius. -/
theorem claim_C6_eval :
    spergelStepK 1 5 = Real.pi / 5 ∧
    spergelStepKClaim 1 5 2 = Real.pi / 10 ∧
    spergelStepK 1 5 ≠ spergelStepKClaim 1 5 2 := by
  have h1 : max (1:ℝ) 5 = 5 := by norm_num
  have h2 : max (1:ℝ) (5 * 2) = 10 := by norm_num
  refine ⟨?_, ?_, ?_⟩
  · simp only [spergelStepK, h1]
  · simp only [spergelStepKClaim, h2]
  · simp only [spergelStepK, spergelStepKClaim, h1, h2]
    intro h
    have hpi := Real.pi_pos
    nlinarith

/-- Residual translated from SpergelIntegratedFlux::operator() (part_000
lines 270-306): the closed-form flux enclosed within radius u, in units
of the scale radius, minus the target fraction; the modified Bessel
evaluator math::cyl_bessel_k (not under src/) is a parameter. -/
noncomputable def spergelIntegratedFlux (besselK : ℝ → ℝ → ℝ)
    (nu gamma_nup2 target u : ℝ) : ℝ :=
  1 - 2 * (1 + nu) * ((u / 2) ^ (nu + 1) * besselK (nu + 1) u / gamma_nup2) - target

/-- Translation of SpergelInfo::calculateIntegratedFlux (part_000 lines
329-333): the residual functor with the default target zero. -/
noncomputable def infoCalculateIntegratedFlux (besselK : ℝ → ℝ → ℝ) (nu u : ℝ) : ℝ :=
  spergelIntegratedFlux besselK nu (gammaNup2 nu) 0 u

/-- Modelled from the spec: the contract of the bracketing Brent solver of
Solve.h, which is not under src/ (spec section 4.1: a bracketing root
finder taking a scalar function, a bracket and a convergence tolerance;
SpergelInfo::calculateFluxRadius sets an x-space tolerance of 1e-25).
The returned value lies within the tolerance of an exact root inside the
bracket. -/
def solverResult (g : ℝ → ℝ) (lo hi tol R : ℝ) : Prop :=
  ∃ root, root ∈ Set.Icc lo hi ∧ g root = 0 ∧ |R - root| ≤ tol

/-- C5: the two derived-constant operations compose to a round trip
within solver accuracy.  Whenever R is a value the Brent solver may
return for calculateFluxRadius(f) — within x-tolerance tol of an exact
root of the enclosed-flux residual at target f — and the enclosed-flux
function is L-Lipschitz, calculateIntegratedFlux(R) differs from f by at
most L times tol; the instance-level wrappers of SBSpergelImpl (part_000
lines 118-121) only rescale by the scale radius, which cancels, so the
same bound holds through them. -/
theorem claim_C5 (besselK : ℝ → ℝ → ℝ) (nu f lo hi tol L R : ℝ)
    (hf0 : 0 < f) (hf1 : f < 1) (hL0 : 0 ≤ L)
    (hLip : ∀ x y, |infoCalculateIntegratedFlux besselK nu x
      - infoCalculateIntegratedFlux besselK nu y| ≤ L * |x - y|)
    (hR : solverResult (spergelIntegratedFlux besselK nu (gammaNup2 nu) f) lo hi tol R) :
    |infoCalculateIntegratedFlux besselK nu R - f| ≤ L * tol ∧
    ∀ r0 : ℝ, r0 ≠ 0 →
      |infoCalculateIntegratedFlux besselK nu ((R * r0) * (1 / r0)) - f| ≤ L * tol := by
  obtain ⟨root, hroot, hg, hclose⟩ := hR
  have hF : infoCalculateIntegratedFlux besselK nu root = f := by
    have hsplit : spergelIntegratedFlux besselK nu (gammaNup2 nu) f root
        = infoCalculateIntegratedFlux besselK nu root - f := by
      unfold infoCalculateIntegratedFlux spergelIntegratedFlux
      ring
    rw [hsplit] at hg
    linarith
  have hmain : |infoCalculateIntegratedFlux besselK nu R - f| ≤ L * tol := by
    calc |infoCalculateIntegratedFlux besselK nu R - f|
        = |infoCalculateIntegratedFlux besselK nu R
            - infoCalculateIntegratedFlux besselK nu root| := by rw [hF]
      _ ≤ L * |R - root| := hLip R root
      _ ≤ L * tol := mul_le_mul_of_nonneg_left hclose hL0
  refine ⟨hmain, ?_⟩
  intro r0 hr0
  have hcancel : (R * r0) * (1 / r0) = R := by
    field_simp
  rw [hcancel]
  exact hmain

/-- Witness for C5 with nu = 0 and a constant Bessel stand-in for which
the enclosed-flux function is 1 - u/2: the solver returns the exact root
 1 of the residual at target 1/2 with zero tolerance, the function is
1-Lipschitz, and the round trip lands exactly on 1/2. -/
theorem claim_C5_witness :
    (0 < (1/2 : ℝ) ∧ (1/2 : ℝ) < 1 ∧ (0:ℝ) ≤ 1) ∧
    |infoCalculateIntegratedFlux (fun _ _ => 1/2) 0 1 - 1/2| ≤ 1 * 0 := by
  have hval : ∀ u : ℝ, infoCalculateIntegratedFlux (fun _ _ => 1/2) 0 u = 1 - u / 2 := by
    intro u
    unfold infoCalculateIntegratedFlux spergelIntegratedFlux gammaNup2 gammaNup1
    rw [zero_add, Real.rpow_one, Real.Gamma_one]
    ring
  have hLip : ∀ x y : ℝ, |infoCalculateIntegratedFlux (fun _ _ => 1/2) 0 x
      - infoCalculateIntegratedFlux (fun _ _ => 1/2) 0 y| ≤ 1 * |x - y| := by
    intro x y
    rw [hval x, hval y]
    have h1 : (1 - x / 2) - (1 - y / 2) = -(x - y) / 2 := by ring
    rw [h1, abs_div, abs_neg, one_mul]
    have h2 : |x - y| / |(2:ℝ)| = |x - y| / 2 := by norm_num
    rw [h2]
    have := abs_nonneg (x - y)
    linarith
  have hroot : spergelIntegratedFlux (fun _ _ => 1/2) 0 (gammaNup2 0) (1/2) 1 = 0 := by
    have hsplit : spergelIntegratedFlux (fun _ _ => 1/2) 0 (gammaNup2 0) (1/2) 1
        = infoCalculateIntegratedFlux (fun _ _ => 1/2) 0 1 - 1/2 := by
      unfold infoCalculateIntegratedFlux spergelIntegratedFlux
      ring
    rw [hsplit, hval 1]
    norm_num
  have hR : solverResult (spergelIntegratedFlux (fun _ _ => 1/2) 0 (gammaNup2 0) (1/2))
      0.1 3.5 0 1 := by
    refine ⟨1, ⟨by norm_num, by norm_num⟩, hroot, by norm_num⟩
  exact ⟨⟨by norm_num, by norm_num, by norm_num⟩,
    (claim_C5 (fun _ _ => 1/2) 0 (1/2) 0.1 3.5 0 1 1 (by norm_num) (by norm_num)
      (by norm_num) hLip hR).1⟩

/-- Radial profile value K_nu(rmin) times rmin^nu at the matching radius,
as SpergelInfo::shoot computes it (part_000 line 432). -/
noncomputable def shootKnur (besselK : ℝ → ℝ → ℝ) (nu rmin : ℝ) : ℝ :=
  besselK nu rmin * rmin ^ nu

/-- Slope b of the linear replacement profile for nu ≤ 0
(part_000 line 433). -/
noncomputable def shootB (besselK : ℝ → ℝ → ℝ) (nu flux_target rmin : ℝ) : ℝ :=
  3 / rmin * (shootKnur besselK nu rmin - flux_target / (Real.pi * rmin * rmin))

/-- Intercept a of the linear replacement profile for nu ≤ 0
(part_000 line 434). -/
noncomputable def shootA (besselK : ℝ → ℝ → ℝ) (nu flux_target rmin : ℝ) : ℝ :=
  shootKnur besselK nu rmin - rmin * shootB besselK nu flux_target rmin

lemma radialLinearIntegral (a b rmin : ℝ) :
    (∫ r in (0:ℝ)..rmin, 2 * Real.pi * r * (a + b * r))
      = Real.pi * a * rmin ^ 2 + 2 * Real.pi / 3 * b * rmin ^ 3 := by
  have hfun : (fun r : ℝ => 2 * Real.pi * r * (a + b * r))
      = fun r : ℝ => (2 * Real.pi * a) * r + (2 * Real.pi * b) * r ^ 2 := by
    funext r
    ring
  have h1 : IntervalIntegrable (fun r : ℝ => (2 * Real.pi * a) * r)
      MeasureTheory.volume 0 rmin :=
    (continuous_const.mul continuous_id).intervalIntegrable 0 rmin
  have h2 : IntervalIntegrable (fun r : ℝ => (2 * Real.pi * b) * r ^ 2)
      MeasureTheory.volume 0 rmin :=
    (continuous_const.mul (continuous_pow 2)).intervalIntegrable 0 rmin
  rw [hfun, intervalIntegral.integral_add h1 h2,
    intervalIntegral.integral_const_mul, intervalIntegral.integral_const_mul,
    integral_id, integral_pow]
  push_cast
  ring

/-- C8: for nu ≤ 0, the directly computed coefficients of the linear
replacement a + b r on the innermost region [0, rmin] satisfy both
defining conditions simultaneously — the two-dimensional radial integral
of the linear density over [0, rmin] equals the target enclosed flux
shoot_accuracy, and the line matches the true profile value
K_nu(rmin) rmin^nu at rmin — and they are the unique such pair. -/
theorem claim_C8 (besselK : ℝ → ℝ → ℝ) (nu flux_target rmin : ℝ) (hr : 0 < rmin) :
    ((∫ r in (0:ℝ)..rmin, 2 * Real.pi * r
        * (shootA besselK nu flux_target rmin + shootB besselK nu flux_target rmin * r))
      = flux_target) ∧
    (shootA besselK nu flux_target rmin + shootB besselK nu flux_target rmin * rmin
      = shootKnur besselK nu rmin) ∧
    (∀ a b : ℝ,
      (∫ r in (0:ℝ)..rmin, 2 * Real.pi * r * (a + b * r)) = flux_target →
      a + b * rmin = shootKnur besselK nu rmin →
      a = shootA besselK nu flux_target rmin ∧ b = shootB besselK nu flux_target rmin) := by
  have hrne : rmin ≠ 0 := ne_of_gt hr
  have hpi : Real.pi ≠ 0 := Real.pi_ne_zero
  have hE1 : Real.pi * shootA besselK nu flux_target rmin * rmin ^ 2
      + 2 * Real.pi / 3 * shootB besselK nu flux_target rmin * rmin ^ 3 = flux_target := by
    unfold shootA shootB
    field_simp
    ring
  have hE2 : shootA besselK nu flux_target rmin + shootB besselK nu flux_target rmin * rmin
      = shootKnur besselK nu rmin := by
    unfold shootA
    ring
  refine ⟨?_, hE2, ?_⟩
  · rw [radialLinearIntegral]
    exact hE1
  · intro a b h1 h2
    rw [radialLinearIntegral] at h1
    have hb0 : Real.pi / 3 * rmin ^ 3 * (b - shootB besselK nu flux_target rmin) = 0 := by
      linear_combination hE1 - h1 + Real.pi * rmin ^ 2 * h2 - Real.pi * rmin ^ 2 * hE2
    have hfac : Real.pi / 3 * rmin ^ 3 ≠ 0 :=
      mul_ne_zero (div_ne_zero hpi (by norm_num)) (pow_ne_zero 3 hrne)
    have hb : b = shootB besselK nu flux_target rmin := by
      rcases mul_eq_zero.mp hb0 with h | h
      · exact absurd h hfac
      · linarith [sub_eq_zero.mp h]
    refine ⟨?_, hb⟩
    rw [hb] at h2
    linarith [hE2, h2]

/-- Witness for C8 at rmin = 1 with a constant Bessel stand-in. -/
theorem claim_C8_witness :
    0 < (1:ℝ) ∧
    (((∫ r in (0:ℝ)..1, 2 * Real.pi * r
        * (shootA (fun _ _ => 1) 0 (1/10) 1 + shootB (fun _ _ => 1) 0 (1/10) 1 * r))
      = 1/10) ∧
    (shootA (fun _ _ => 1) 0 (1/10) 1 + shootB (fun _ _ => 1) 0 (1/10) 1 * 1
      = shootKnur (fun _ _ => 1) 0 1) ∧
    (∀ a b : ℝ,
      (∫ r in (0:ℝ)..1, 2 * Real.pi * r * (a + b * r)) = 1/10 →
      a + b * 1 = shootKnur (fun _ _ => 1) 0 1 →
      a = shootA (fun _ _ => 1) 0 (1/10) 1 ∧ b = shootB (fun _ _ => 1) 0 (1/10) 1)) :=
  ⟨by norm_num, claim_C8 (fun _ _ => 1) 0 (1/10) 1 (by norm_num)⟩

/-- Witness for the amended C4: with the halving binomial model and four
photons both members contribute, the flag equals the member-count test
and is set. -/
theorem claim_C4_witness :
    1 < contributingMembers [elemA, elemB] bdHalf 4 ∧
    (sbaddShoot [elemA, elemB] bdHalf 4).correlated
      = decide (1 < ([elemA, elemB] : List SBElem).length) ∧
    (sbaddShoot [elemA, elemB] bdHalf 4).correlated = true := by
  have hc : contributingMembers [elemA, elemB] bdHalf 4 = 2 := by
    simp only [contributingMembers]
    norm_num [allocCounts_pair, allocCounts_one, bdHalf, SBElem.absFlux, elemA, elemB,
      memberContribution, scaleFlux]
  exact ⟨by rw [hc]; norm_num, (claim_C4 [elemA, elemB] bdHalf 4).1,
    (claim_C4 [elemA, elemB] bdHalf 4).2 (by rw [hc]; norm_num)⟩
